import Mathlib

/-!
# Verification of the ytChatbot video-segmentation core

This file gives a shallow embedding, in Lean 4, of the chunking / stitching /
merge / coverage pipeline of the repository:

* `src/agent/video_segmenter/format_transcript_snippets.py` (transcript windowing),
* `src/agent/video_segmenter/are_topics_similar.py` (Jaccard topic similarity),
* `src/agent/video_segmenter/merge_similar_segments.py` (the merge engine),
* `src/agent/video_segmenter/segment_long_video.py` (the chunk scheduler),
* `src/agent/video_segmenter.py` `format_timestamp` (timestamp rendering),
* `src/endpoints/segmentation.py` `_verify_segmentation_coverage` (coverage verifier),

and proves or refutes the spec's claims about them.

Modelling conventions:
* Python floats (times, durations) are modelled as `ℚ`.
* Python strings are Lean `String`s; `str.lower()` is `Char.toLower` mapped over
  the characters (the repository only ever lowers ASCII text).
* Python `int(x)` (truncation toward zero) is `pythonInt`.
* The fallible LLM call (`create_segmentation_chain(...).invoke`) is an external
  collaborator; it is modelled as an explicit function argument
  `adapter : ℕ → String → Except String VideoSegmentation` receiving the chunk
  number (the source encodes it into the `"{video_id} (part {n})"` label, which
  determines it uniquely; the short-video direct call is modelled as chunk
  number `0`) and the formatted transcript window, and returning either a
  result or an error message string (the Python exception text), which the
  scheduler classifies by substring sniffing exactly as the source does.
* Python's `set` has no specified iteration order; `list(set(a + b))` in the
  merge engine is modelled as first-occurrence deduplication
  (`(a ++ b).dedup`), and all set-level claims are stated order-insensitively.
* The `while` loop of `segment_long_video` is embedded with an explicit fuel
  parameter; the fuel `loopFuel` is chosen large enough that, whenever
  `overlap_duration < chunk_duration`, the embedded loop runs to the same
  completion as the source loop (proved in the lemmas below).
-/

/-! ## Python-style string and number helpers -/

/-- `str.lower()` restricted to the character-wise ASCII lowering the
repository relies on. -/
def lowerStr (s : String) : String := ⟨s.data.map Char.toLower⟩

/-- Python whitespace characters stripped by `str.strip()`. -/
def isPyWhitespace (c : Char) : Bool :=
  c = ' ' || c = '\t' || c = '\n' || c = '\x0d' || c = '\x0b' || c = '\x0c'

/-- Python `str.strip()`: drop leading and trailing whitespace. -/
def stripStr (s : String) : String :=
  ⟨((s.data.dropWhile isPyWhitespace).reverse.dropWhile isPyWhitespace).reverse⟩

/-- Substring test on character lists (Python's `needle in hay`). -/
def listHasSub (needle : List Char) : List Char → Bool
  | [] => needle.isEmpty
  | c :: cs => needle.isPrefixOf (c :: cs) || listHasSub needle cs

/-- Python's `needle in hay` on strings. -/
def strHasSub (hay needle : String) : Bool := listHasSub needle.data hay.data

/-- Python `"\n".join(lines)`. -/
def joinLines : List String → String
  | [] => ""
  | [l] => l
  | l :: ls => l ++ "\n" ++ joinLines ls

/-- Python `f"{n:02d}"` for a natural number. -/
def pad2 (n : ℕ) : String := if n < 10 then "0" ++ toString n else toString n

/-- Python `int(x)` on a float: truncation toward zero. -/
def pythonInt (q : ℚ) : ℤ := if 0 ≤ q then ⌊q⌋ else -⌊-q⌋

/-! ## Data model

`TranscriptSnippet` mirrors the snippet objects (`.text`, `.start`,
`.duration`) and `VideoSegment` / `VideoSegmentation` mirror the pydantic
models of `src/models/pydantic_models.py` (`difficulty_level` is
`Optional[str]` with default `"medium"`; the merge engine only copies it, so a
plain `String` carries the same information). -/

structure TranscriptSnippet where
  text : String
  start : ℚ
  duration : ℚ
deriving DecidableEq

structure VideoSegment where
  title : String
  start_time : ℚ
  end_time : ℚ
  summary : String
  key_topics : List String
  difficulty_level : String
deriving DecidableEq

structure VideoSegmentation where
  video_id : String
  total_segments : ℕ
  segments : List VideoSegment
  overall_topic : Option String
deriving DecidableEq

deriving instance DecidableEq for Except

/-! ## `format_timestamp` (src/agent/video_segmenter.py, lines 113–122)

`hours = int(seconds // 3600)`, `minutes = int((seconds % 3600) // 60)`,
`secs = int(seconds % 60)`; rendered `HH:MM:SS` when `hours > 0`, else
`MM:SS`.  The repository only calls it with nonnegative times, where Python's
float `//` and `%` agree with `Int.floor`-based division and remainder and
`int(...)` of the (integral, nonnegative) results is `Int.toNat`. -/

def format_timestamp (seconds : ℚ) : String :=
  let hours : ℕ := (⌊seconds / 3600⌋).toNat
  let minutes : ℕ := (⌊(seconds - 3600 * ⌊seconds / 3600⌋) / 60⌋).toNat
  let secs : ℕ := (⌊seconds - 60 * ⌊seconds / 60⌋⌋).toNat
  if hours > 0 then
    pad2 hours ++ ":" ++ pad2 minutes ++ ":" ++ pad2 secs
  else
    pad2 minutes ++ ":" ++ pad2 secs

/-! ## Transcript windowing
(src/agent/video_segmenter/format_transcript_snippets.py, lines 21–41) -/

/-- The literal truncation marker line appended on overflow. -/
def truncationMarker : String := "... [transcript truncated for length] ..."

/-- `line = f"[{timestamp}] {snippet.text}"`. -/
def formatSnippetLine (snippet : TranscriptSnippet) : String :=
  "[" ++ format_timestamp snippet.start ++ "] " ++ snippet.text

/-- The `for snippet in snippets` loop of `format_transcript_snippets`, with
the running `total_chars` made explicit.  Returns the accumulated `lines`
together with a flag recording whether the truncation-marker branch fired. -/
def formatLoop (maxChars : ℕ) (startTime : ℚ) (endTime : Option ℚ) :
    List TranscriptSnippet → ℕ → List String × Bool
  | [], _ => ([], false)
  | snippet :: rest, totalChars =>
    if snippet.start < startTime then
      formatLoop maxChars startTime endTime rest totalChars
    else if endTime.any (fun e => decide (e ≤ snippet.start)) then
      ([], false)
    else
      let line := formatSnippetLine snippet
      if maxChars < totalChars + line.length then ([truncationMarker], true)
      else
        let res := formatLoop maxChars startTime endTime rest (totalChars + line.length + 1)
        (line :: res.1, res.2)

/-- `format_transcript_snippets(snippets, max_chars, start_time, end_time)`;
Python defaults are `max_chars=15000`, `start_time=0`, `end_time=None`
(callers pass them explicitly here). -/
def format_transcript_snippets (snippets : List TranscriptSnippet) (max_chars : ℕ)
    (start_time : ℚ) (end_time : Option ℚ) : String :=
  joinLines (formatLoop max_chars start_time end_time snippets 0).1

/-! ## Topic similarity (src/agent/video_segmenter/are_topics_similar.py) -/

/-- `are_topics_similar(seg1, seg2, threshold)`: Jaccard similarity over
case-lowered topic sets, `False` when either lowered set is empty. -/
def are_topics_similar (seg1 seg2 : VideoSegment) (threshold : ℚ) : Bool :=
  let topics1 := (seg1.key_topics.map lowerStr).dedup
  let topics2 := (seg2.key_topics.map lowerStr).dedup
  if topics1.isEmpty || topics2.isEmpty then false
  else
    let intersection : ℕ := (topics1.filter (fun t => topics2.contains t)).length
    let union : ℕ := ((topics1 ++ topics2).dedup).length
    let similarity : ℚ := if 0 < union then (intersection : ℚ) / (union : ℚ) else 0
    decide (threshold ≤ similarity)

/-- Spec-side Jaccard similarity of two topic lists viewed as case-lowered
sets (`|A∩B| / |A∪B|`, and `0` when either set is empty — spec §4.4). -/
def jaccardSimilarity (ts1 ts2 : List String) : ℚ :=
  let a := (ts1.map lowerStr).dedup
  let b := (ts2.map lowerStr).dedup
  if a.isEmpty || b.isEmpty then 0
  else ((a.filter (fun t => b.contains t)).length : ℚ) / (((a ++ b).dedup).length : ℚ)

/-! ## Merge engine (src/agent/video_segmenter/merge_similar_segments.py) -/

/-- The literal continuation-marker substrings checked against
`next_seg.title.lower()`. -/
def continuationMarkers : List String :=
  ["continued", "continuation", "part 2", "part two", "part 3", "(cont", "- cont"]

def hasContinuationMarker (next_seg : VideoSegment) : Bool :=
  continuationMarkers.any (fun marker => strHasSub (lowerStr next_seg.title) marker)

/-- The combined segment built in the merge branch (lines 65–72 of the
source): original title and difficulty, concatenated-and-stripped summary,
extended end time, deduplicated topic union. -/
def mergeTwo (current next_seg : VideoSegment) : VideoSegment :=
  { title := current.title
    summary := stripStr (current.summary ++ " " ++ next_seg.summary)
    start_time := current.start_time
    end_time := next_seg.end_time
    key_topics := (current.key_topics ++ next_seg.key_topics).dedup
    difficulty_level := current.difficulty_level }

/-- The `for next_seg in sorted_segments[1:]` reduction of
`merge_similar_segments`, carrying the `current` accumulator. -/
def mergeLoop (thr : ℚ) (current : VideoSegment) : List VideoSegment → List VideoSegment
  | [] => [current]
  | next_seg :: rest =>
    let time_gap := next_seg.start_time - current.end_time
    if time_gap < 0 then
      if current.summary.length + current.key_topics.length
          < next_seg.summary.length + next_seg.key_topics.length then
        mergeLoop thr next_seg rest
      else
        mergeLoop thr current rest
    else
      if (decide (time_gap ≤ thr) && are_topics_similar current next_seg (1/2))
          || hasContinuationMarker next_seg then
        mergeLoop thr (mergeTwo current next_seg) rest
      else
        current :: mergeLoop thr next_seg rest

/-- The sort key order `s.start_time ≤ t.start_time` of
`sorted(segments, key=lambda s: s.start_time)`. -/
def startLE (a b : VideoSegment) : Prop := a.start_time ≤ b.start_time

instance : DecidableRel startLE := fun a b => inferInstanceAs (Decidable (_ ≤ _))

instance : IsTotal VideoSegment startLE := ⟨fun a b => le_total a.start_time b.start_time⟩

instance : IsTrans VideoSegment startLE := ⟨fun _ _ _ h h' => le_trans h h'⟩

/-- Python's stable `sorted(segments, key=lambda s: s.start_time)`
(insertion sort is stable, hence extensionally the same function). -/
def sortByStart (segments : List VideoSegment) : List VideoSegment :=
  List.insertionSort startLE segments

/-- `merge_similar_segments(segments, similarity_threshold=300)`. -/
def merge_similar_segments (segments : List VideoSegment)
    (similarity_threshold : ℚ := 300) : List VideoSegment :=
  if segments.length < 2 then segments
  else
    match sortByStart segments with
    | [] => []
    | current :: rest => mergeLoop similarity_threshold current rest

/-! ## Chunk scheduler (src/agent/video_segmenter/segment_long_video.py) -/

/-- The per-chunk accumulation loop (`for segment in chunk_result.segments`,
lines 95–105): chunk 1 appends every segment; later chunks append only
segments with `start_time >= chunk_start + overlap_duration`. -/
def includeChunkSegments (chunk_number : ℕ) (chunk_start overlap_duration : ℚ)
    (acc : List VideoSegment) : List VideoSegment → List VideoSegment
  | [] => acc
  | segment :: rest =>
    if chunk_number = 1 then
      includeChunkSegments chunk_number chunk_start overlap_duration (acc ++ [segment]) rest
    else if chunk_start + overlap_duration ≤ segment.start_time then
      includeChunkSegments chunk_number chunk_start overlap_duration (acc ++ [segment]) rest
    else
      includeChunkSegments chunk_number chunk_start overlap_duration acc rest

/-- The except-branch classification (lines 110–117): an error is a rate
limit iff `'rate' in msg or 'limit' in msg or '429' in msg` on the lowered
message. -/
def isRateLimitError (e : String) : Bool :=
  let m := lowerStr e
  strHasSub m "rate" || strHasSub m "limit" || strHasSub m "429"

/-- `total_chunks = int((total_duration - overlap_duration) / (chunk_duration - overlap_duration)) + 1`. -/
def totalChunks (T D V : ℚ) : ℤ := pythonInt ((T - V) / (D - V)) + 1

/-- Fuel for the embedded `while chunk_start < total_duration` loop; large
enough to cover every iteration when `V < D` (proved below). -/
def loopFuel (T D V : ℚ) : ℕ := if V < D then (⌈T / (D - V)⌉).toNat + 1 else 0

/-- The sequence of `(chunk_start, chunk_end)` windows the `while` loop
iterates: `chunk_end = min(chunk_start + chunk_duration, total_duration)`,
next `chunk_start = chunk_end - overlap_duration`, stopping after a window
with `chunk_end >= total_duration`. -/
def chunkLoop (T D V : ℚ) : ℕ → ℚ → List (ℚ × ℚ)
  | 0, _ => []
  | fuel + 1, chunk_start =>
    if chunk_start < T then
      let chunk_end := min (chunk_start + D) T
      if T ≤ chunk_end then [(chunk_start, chunk_end)]
      else (chunk_start, chunk_end) :: chunkLoop T D V fuel (chunk_end - V)
    else []

/-- The planned chunk windows of a run (`ChunkPlan` of the spec). -/
def chunkWindows (T D V : ℚ) : List (ℚ × ℚ) := chunkLoop T D V (loopFuel T D V) 0

/-- The mutable state of the scheduling loop: `all_segments`,
`last_processed_chunk` and the running `overall_topic` (initially the plain
string `"Long video content"`, replaced by chunk 1's `Optional[str]` topic). -/
structure LoopState where
  all_segments : List VideoSegment
  last_processed_chunk : ℕ
  overall_topic : Option String
deriving DecidableEq

/-- The `while chunk_start < total_duration` loop of `segment_long_video`
(lines 68–125), with fuel.  `Except.error` models an exception propagating out
of the loop (the non-rate-limit re-raise); a rate-limited adapter failure
breaks out of the loop with the state accumulated so far. -/
def segLoop (adapter : ℕ → String → Except String VideoSegmentation)
    (snippets : List TranscriptSnippet) (T D V : ℚ) :
    ℕ → ℚ → ℕ → LoopState → Except String LoopState
  | 0, _, _, st => .ok st
  | fuel + 1, chunk_start, chunk_number, st =>
    if chunk_start < T then
      let chunk_end := min (chunk_start + D) T
      match adapter chunk_number
          (format_transcript_snippets snippets 15000 chunk_start (some chunk_end)) with
      | .error e => if isRateLimitError e then .ok st else .error e
      | .ok chunk_result =>
        let st' : LoopState :=
          { all_segments :=
              includeChunkSegments chunk_number chunk_start V st.all_segments chunk_result.segments
            last_processed_chunk := chunk_number
            overall_topic :=
              if chunk_number = 1 then chunk_result.overall_topic else st.overall_topic }
        if T ≤ chunk_end then .ok st'
        else segLoop adapter snippets T D V fuel (chunk_end - V) (chunk_number + 1) st'
    else .ok st

/-- `all_segments[-1].end_time if all_segments else 0`. -/
def lastEndOrZero (segs : List VideoSegment) : ℚ :=
  match segs.getLast? with
  | some s => s.end_time
  | none => 0

/-- Python f-string rendering of the running `overall_topic` value (a plain
string, or chunk 1's `Optional[str]` where `None` renders as `"None"`). -/
def pyStrOpt : Option String → String
  | some s => s
  | none => "None"

/-- `segment_video(video_id, transcript_snippets)` — the short-video direct
call (src/agent/video_segmenter/segment_video.py): one adapter invocation on
the whole transcript with the Python-default window arguments. -/
def segment_video (adapter : ℕ → String → Except String VideoSegmentation)
    (snippets : List TranscriptSnippet) : Except String VideoSegmentation :=
  adapter 0 (format_transcript_snippets snippets 15000 0 none)

/-- `segment_long_video(video_id, transcript_snippets, chunk_duration=3600,
overlap_duration=300)` (lines 14–141 of the source). -/
def segment_long_video (adapter : ℕ → String → Except String VideoSegmentation)
    (video_id : String) (snippets : List TranscriptSnippet)
    (chunk_duration overlap_duration : ℚ) : Except String VideoSegmentation :=
  match snippets.getLast? with
  | none => .error "No transcript snippets provided"
  | some lastSnippet =>
    let total_duration := lastSnippet.start + lastSnippet.duration
    if total_duration ≤ chunk_duration then segment_video adapter snippets
    else
      let total_chunks := totalChunks total_duration chunk_duration overlap_duration
      match segLoop adapter snippets total_duration chunk_duration overlap_duration
          (loopFuel total_duration chunk_duration overlap_duration) 0 1
          ⟨[], 0, some "Long video content"⟩ with
      | .error e => .error e
      | .ok st =>
        let merged := merge_similar_segments st.all_segments 300
        let overall :=
          if (st.last_processed_chunk : ℤ) < total_chunks then
            some (pyStrOpt st.overall_topic ++ " [Partial: " ++ toString st.last_processed_chunk
              ++ "/" ++ toString total_chunks ++ " chunks processed up to "
              ++ format_timestamp (lastEndOrZero st.all_segments) ++ "]")
          else st.overall_topic
        .ok { video_id := video_id, total_segments := merged.length, segments := merged,
              overall_topic := overall }

/-! ## Coverage verifier (src/endpoints/segmentation.py, lines 153–207)

The database lookups are abstracted into the function's inputs: the stored
video's transcript (`None` when `db.get_video` finds nothing) and the cached
segmentation's segment list. -/

/-- `max(seg["end_time"] for seg in segments)` (0 for the empty list, which
the caller has already excluded). -/
def maxEndTime : List VideoSegment → ℚ
  | [] => 0
  | s :: rest => rest.foldl (fun m t => max m t.end_time) s.end_time

/-- `_verify_segmentation_coverage`: fails closed on missing video data,
empty transcript, or empty segment list; otherwise compares
`(last_segment_end / actual_duration) * 100` (0 when `actual_duration <= 0`)
against `95.0`. -/
def verify_segmentation_coverage (videoTranscript : Option (List TranscriptSnippet))
    (segments : List VideoSegment) : Bool :=
  match videoTranscript with
  | none => false
  | some transcript =>
    match transcript.getLast? with
    | none => false
    | some lastSnippet =>
      let actual_duration := lastSnippet.start + lastSnippet.duration
      if segments.isEmpty then false
      else
        let last_segment_end := maxEndTime segments
        let coverage_percentage :=
          if 0 < actual_duration then last_segment_end / actual_duration * 100 else 0
        decide ((95 : ℚ) ≤ coverage_percentage)

/-! ## Concrete data used by scenario witnesses and counterexamples -/

/-- A single segment the always-succeeding test adapter reports. -/
def segS1 : VideoSegment := ⟨"S1", 10, 3590, "sum", ["t"], "medium"⟩

/-- The fixed result of the always-succeeding test adapter. -/
def resultR1 : VideoSegmentation := ⟨"v", 1, [segS1], some "T1"⟩

/-- An adapter that succeeds on every chunk with the same result. -/
def adapterAllOk : ℕ → String → Except String VideoSegmentation := fun _ _ => .ok resultR1

/-- An adapter whose very first chunk call fails rate-limited. -/
def adapterRateLimitedAt1 : ℕ → String → Except String VideoSegmentation :=
  fun n _ => if n = 1 then .error "Rate limit exceeded (429)" else .ok resultR1

/-- A 6900-second transcript (one snippet): `(6900 - 3600)` is an exact
multiple of `(3600 - 300)`, the edge case where `total_chunks` overcounts. -/
def snips6900 : List TranscriptSnippet := [⟨"hello", 6890, 10⟩]

/-- A 7200-second transcript (one snippet), the spec's scenario duration. -/
def snips7200 : List TranscriptSnippet := [⟨"hello", 7190, 10⟩]

/-- C3 counterexample input, first segment. -/
def segCexA : VideoSegment := ⟨"A", 0, 100, "sa", ["a"], "medium"⟩

/-- C3 counterexample input, second segment (emitted unmerged in pass 1). -/
def segCexB : VideoSegment := ⟨"B", 150, 200, "s", ["b"], "medium"⟩

/-- C3 counterexample input, third segment: overlaps `segCexB`, is richer, and
carries a continuation marker in its title. -/
def segCexC : VideoSegment := ⟨"part 2 of B", 160, 300, "long summary here", ["b"], "medium"⟩

/-- C5 scenario (spec §8.6): first segment. -/
def segA : VideoSegment := ⟨"A", 0, 3000, "s1", ["x", "y"], "medium"⟩

/-- C5 scenario (spec §8.6): continuation segment. -/
def segAcont : VideoSegment := ⟨"A continued", 3000, 6000, "s2", ["x", "y"], "medium"⟩

/-- C6 scenario (spec §8.7): the poorer overlapping segment. -/
def segShort : VideoSegment := ⟨"", 0, 100, "short", [], "medium"⟩

/-- C6 scenario (spec §8.7): the richer overlapping segment. -/
def segRich : VideoSegment := ⟨"", 50, 200, "much longer detailed summary text", [], "medium"⟩

/-! ## Proofs

Batteries marks `Rat` arithmetic `@[irreducible]`; the embedded functions are
honest computations over `ℚ`, so reducibility is restored locally to let
`decide` evaluate them on the concrete scenario inputs. -/

set_option allowUnsafeReducibility true
attribute [local semireducible] Rat.mul Rat.add Rat.sub Rat.inv Rat.ofScientific

/-! ### C4 — boundary inclusion rule of the chunk loop -/

/-- C4: In the chunk loop, segment inclusion is asymmetric by chunk index:
chunk 1 accumulates every segment the adapter returns (no clamping or range
validation), while every later chunk accumulates a returned segment if and
only if `start_time ≥ chunk_start + overlap_duration` — i.e. the loop appends
exactly the filtered list, in order, to the accumulator. -/
theorem includeChunkSegments_asymmetric (chunk_number : ℕ)
    (chunk_start overlap_duration : ℚ) (acc segs : List VideoSegment) :
    includeChunkSegments chunk_number chunk_start overlap_duration acc segs
      = acc ++ (if chunk_number = 1 then segs
          else segs.filter (fun s => decide (chunk_start + overlap_duration ≤ s.start_time))) := by
  induction segs generalizing acc with
  | nil => simp [includeChunkSegments]
  | cons s rest ih =>
    by_cases h1 : chunk_number = 1
    · subst h1
      simp [includeChunkSegments, ih, List.append_assoc]
    · by_cases h2 : chunk_start + overlap_duration ≤ s.start_time
      · simp [includeChunkSegments, h1, h2, ih, List.filter_cons, List.append_assoc]
      · simp [includeChunkSegments, h1, h2, ih, List.filter_cons]

/-! ### C6 — overlap resolution keeps the richer segment -/

/-- C6: When two consecutive sorted segments overlap
(`next.start_time < current.end_time`), the merge engine keeps exactly one of
the two — the one with the larger `len(summary) + len(key_topics)`, keeping
`current` on a tie — and emits no third segment for the pair. -/
theorem mergeLoop_overlap_keeps_richer (thr : ℚ) (current next_seg : VideoSegment)
    (rest : List VideoSegment) (hov : next_seg.start_time < current.end_time) :
    mergeLoop thr current (next_seg :: rest)
      = mergeLoop thr
          (if current.summary.length + current.key_topics.length
              < next_seg.summary.length + next_seg.key_topics.length
           then next_seg else current) rest := by
  have hneg : next_seg.start_time - current.end_time < 0 := by linarith
  by_cases h : current.summary.length + current.key_topics.length
      < next_seg.summary.length + next_seg.key_topics.length
  · simp [mergeLoop, hneg, h]
  · simp [mergeLoop, hneg, h]

/-- Witness for C6, the spec §8.7 scenario: of the overlapping segments
`{start:0, end:100, summary:"short"}` and
`{start:50, end:200, summary:"much longer detailed summary text"}`, only the
richer second one is kept. -/
theorem mergeLoop_overlap_keeps_richer_witness :
    segRich.start_time < segShort.end_time
      ∧ merge_similar_segments [segShort, segRich] 300 = [segRich] := by
  refine ⟨by decide, ?_⟩
  calc merge_similar_segments [segShort, segRich] 300
      = mergeLoop 300 segShort [segRich] := by decide
    _ = mergeLoop 300
          (if segShort.summary.length + segShort.key_topics.length
              < segRich.summary.length + segRich.key_topics.length
           then segRich else segShort) [] :=
        mergeLoop_overlap_keeps_richer 300 segShort segRich [] (by decide)
    _ = [segRich] := by decide

/-! ### C5 — continuation rule of the merge engine -/

/-- The code's boolean topic-similarity check at threshold `0.5` agrees with
the spec's "Jaccard similarity of the case-lowered `key_topics` sets `≥ 0.5`"
(with similarity `0` when either set is empty). -/
theorem are_topics_similar_iff_jaccard (s1 s2 : VideoSegment) :
    are_topics_similar s1 s2 (1/2) = true
      ↔ 1/2 ≤ jaccardSimilarity s1.key_topics s2.key_topics := by
  unfold are_topics_similar jaccardSimilarity
  by_cases hempty : (((s1.key_topics.map lowerStr).dedup).isEmpty
      || ((s2.key_topics.map lowerStr).dedup).isEmpty) = true
  · rw [if_pos hempty, if_pos hempty]
    norm_num
  · have hf : (((s1.key_topics.map lowerStr).dedup).isEmpty
        || ((s2.key_topics.map lowerStr).dedup).isEmpty) = false := by
      simpa using hempty
    obtain ⟨h1, -⟩ := Bool.or_eq_false_iff.mp hf
    have ha : (s1.key_topics.map lowerStr).dedup ≠ [] := by
      intro h
      simp [h] at h1
    have hu : 0 < (((s1.key_topics.map lowerStr).dedup
        ++ (s2.key_topics.map lowerStr).dedup).dedup).length := by
      rcases List.exists_mem_of_ne_nil _ ha with ⟨x, hx⟩
      exact List.length_pos.mpr
        (List.ne_nil_of_mem (List.mem_dedup.mpr (List.mem_append_left _ hx)))
    rw [if_neg hempty, if_neg hempty]
    simp only [hu, if_true, decide_eq_true_iff]

/-- C5: For consecutive sorted segments with no overlap
(`next.start_time ≥ current.end_time`), the merge engine merges them iff
either (a) the time gap is at most the adjacency threshold AND the Jaccard
similarity of the case-lowered topic sets is `≥ 0.5`, or (b) the next title,
case-lowered, contains a literal continuation marker; the merged segment keeps
`current`'s title and difficulty, spans `current.start_time` to
`next.end_time`, has the stripped space-joined summary, and its topics are the
deduplicated union of both topic lists. -/
theorem mergeLoop_continuation_rule (thr : ℚ) (current next_seg : VideoSegment)
    (rest : List VideoSegment) (hno : current.end_time ≤ next_seg.start_time) :
    (mergeLoop thr current (next_seg :: rest)
       = if (next_seg.start_time - current.end_time ≤ thr
              ∧ 1/2 ≤ jaccardSimilarity current.key_topics next_seg.key_topics)
            ∨ hasContinuationMarker next_seg = true
         then mergeLoop thr (mergeTwo current next_seg) rest
         else current :: mergeLoop thr next_seg rest)
    ∧ (mergeTwo current next_seg).title = current.title
    ∧ (mergeTwo current next_seg).difficulty_level = current.difficulty_level
    ∧ (mergeTwo current next_seg).start_time = current.start_time
    ∧ (mergeTwo current next_seg).end_time = next_seg.end_time
    ∧ (mergeTwo current next_seg).summary
        = stripStr (current.summary ++ " " ++ next_seg.summary)
    ∧ (∀ t, t ∈ (mergeTwo current next_seg).key_topics
          ↔ t ∈ current.key_topics ∨ t ∈ next_seg.key_topics)
    ∧ (mergeTwo current next_seg).key_topics.Nodup := by
  have hneg : ¬(next_seg.start_time - current.end_time < 0) := by linarith
  refine ⟨?_, rfl, rfl, rfl, rfl, rfl, ?_, ?_⟩
  · have hunf : mergeLoop thr current (next_seg :: rest)
        = if ((decide (next_seg.start_time - current.end_time ≤ thr)
              && are_topics_similar current next_seg (1/2))
            || hasContinuationMarker next_seg) = true
          then mergeLoop thr (mergeTwo current next_seg) rest
          else current :: mergeLoop thr next_seg rest := by
      simp only [mergeLoop]
      rw [if_neg hneg]
    have hbool : (((decide (next_seg.start_time - current.end_time ≤ thr)
          && are_topics_similar current next_seg (1/2))
        || hasContinuationMarker next_seg) = true)
        ↔ ((next_seg.start_time - current.end_time ≤ thr
              ∧ 1/2 ≤ jaccardSimilarity current.key_topics next_seg.key_topics)
            ∨ hasContinuationMarker next_seg = true) := by
      rw [Bool.or_eq_true, Bool.and_eq_true, decide_eq_true_iff,
        are_topics_similar_iff_jaccard]
    rw [hunf]
    by_cases hcond : (next_seg.start_time - current.end_time ≤ thr
          ∧ 1/2 ≤ jaccardSimilarity current.key_topics next_seg.key_topics)
        ∨ hasContinuationMarker next_seg = true
    · rw [if_pos (hbool.mpr hcond), if_pos hcond]
    · rw [if_neg (fun h => hcond (hbool.mp h)), if_neg hcond]
  · intro t
    simp [mergeTwo, List.mem_dedup]
  · exact List.nodup_dedup _

/-- Witness for C5, the spec §8.6 scenario: `{title:"A", topics:["x","y"],
start:0, end:3000}` and `{title:"A continued", topics:["x","y"], start:3000,
end:6000}` merge into one segment spanning 0–6000. -/
theorem mergeLoop_continuation_rule_witness :
    segA.end_time ≤ segAcont.start_time
      ∧ merge_similar_segments [segA, segAcont] 300 = [mergeTwo segA segAcont]
      ∧ mergeTwo segA segAcont = ⟨"A", 0, 6000, "s1 s2", ["x", "y"], "medium"⟩ := by
  refine ⟨by decide, ?_, by decide⟩
  calc merge_similar_segments [segA, segAcont] 300
      = mergeLoop 300 segA [segAcont] := by decide
    _ = if (segAcont.start_time - segA.end_time ≤ 300
              ∧ 1/2 ≤ jaccardSimilarity segA.key_topics segAcont.key_topics)
            ∨ hasContinuationMarker segAcont = true
         then mergeLoop 300 (mergeTwo segA segAcont) []
         else segA :: mergeLoop 300 segAcont [] :=
        (mergeLoop_continuation_rule 300 segA segAcont [] (by decide)).1
    _ = [mergeTwo segA segAcont] := by
        rw [if_pos (Or.inr (by decide))]
        rfl

/-! ### C7 — coverage verifier -/

/-- C7: The coverage verifier returns `false` whenever the video data is
missing, the transcript is empty, or the segmentation has no segments, or the
true duration is non-positive; otherwise it returns `true` iff
`max(end_time) / true_duration ≥ 0.95` (so the boundary case of exactly 0.95
returns `true`). -/
theorem verify_segmentation_coverage_spec (videoTranscript : Option (List TranscriptSnippet))
    (segments : List VideoSegment) :
    verify_segmentation_coverage videoTranscript segments = true
      ↔ ∃ transcript lastSnippet, videoTranscript = some transcript
          ∧ transcript.getLast? = some lastSnippet
          ∧ segments ≠ []
          ∧ 0 < lastSnippet.start + lastSnippet.duration
          ∧ (95 : ℚ)/100 ≤ maxEndTime segments / (lastSnippet.start + lastSnippet.duration) := by
  cases videoTranscript with
  | none => simp [verify_segmentation_coverage]
  | some ts =>
    cases hlast : ts.getLast? with
    | none => simp [verify_segmentation_coverage, hlast]
    | some lastS =>
      by_cases hsegs : segments.isEmpty
      · simp [verify_segmentation_coverage, hlast, hsegs, List.isEmpty_iff.mp hsegs]
      · by_cases hdur : 0 < lastS.start + lastS.duration
        · rw [verify_segmentation_coverage]
          simp only [hlast, hsegs, if_pos hdur, if_false, Bool.false_eq_true,
            decide_eq_true_iff, Option.some.injEq]
          constructor
          · intro h
            refine ⟨ts, lastS, rfl, hlast, fun hnil => hsegs (by simp [hnil]), hdur, ?_⟩
            rw [div_le_iff₀ (by norm_num : (0:ℚ) < 100)]
            linarith
          · rintro ⟨ts', lastS', hts, hl, -, -, hcov⟩
            subst hts
            rw [hlast] at hl
            injection hl with hl'
            subst hl'
            rw [div_le_iff₀ (by norm_num : (0:ℚ) < 100)] at hcov
            linarith
        · rw [verify_segmentation_coverage]
          simp only [hlast, hsegs, if_neg hdur, if_false, Bool.false_eq_true,
            Option.some.injEq]
          constructor
          · intro h
            norm_num at h
          · rintro ⟨ts', lastS', hts, hl, -, hpos, -⟩
            subst hts
            rw [hlast] at hl
            injection hl with hl'
            subst hl'
            exact absurd hpos hdur

/-- Witness for C7: the exact-boundary case (coverage 95/100 = 0.95 ⇒ `true`)
and the spec §8.10 scenario (last segment end 6912 of duration 7200, coverage
0.96 ⇒ `true`). -/
theorem verify_segmentation_coverage_witness :
    verify_segmentation_coverage (some [⟨"x", 40, 60⟩]) [⟨"s", 0, 95, "", [], "medium"⟩] = true
    ∧ verify_segmentation_coverage (some [⟨"x", 7100, 100⟩])
        [⟨"s", 0, 6912, "", [], "medium"⟩] = true := by
  constructor
  · exact (verify_segmentation_coverage_spec _ _).mpr
      ⟨[⟨"x", 40, 60⟩], ⟨"x", 40, 60⟩, rfl, by decide, by decide, by decide, by decide⟩
  · exact (verify_segmentation_coverage_spec _ _).mpr
      ⟨[⟨"x", 7100, 100⟩], ⟨"x", 7100, 100⟩, rfl, by decide, by decide, by decide, by decide⟩

/-! ### C8 — transcript windowing budget -/

/-- Length of `"\n".join` of a nonempty line list: sum of the line lengths
plus one separator per line, minus the missing trailing separator. -/
theorem joinLines_length (l : String) (ls : List String) :
    (joinLines (l :: ls)).length + 1 = ((l :: ls).map (fun s => s.length + 1)).sum := by
  induction ls generalizing l with
  | nil => simp [joinLines]
  | cons m ls ih =>
    have hstep : joinLines (l :: m :: ls) = l ++ "\n" ++ joinLines (m :: ls) := rfl
    rw [hstep]
    simp only [String.length_append, List.map_cons, List.sum_cons]
    have hnl : ("\n" : String).length = 1 := rfl
    have := ih m
    simp only [List.map_cons, List.sum_cons] at this
    omega

/-- The windowing loop appends lines only while the running character budget
(each line charged `length + 1` for its separator) stays within `max_chars`;
on overflow it emits exactly the truncation marker as the final line. -/
theorem formatLoop_content_bound (maxChars : ℕ) (st : ℚ) (et : Option ℚ) :
    ∀ (snips : List TranscriptSnippet) (total : ℕ), total ≤ maxChars + 1 →
    ∃ content truncated,
      formatLoop maxChars st et snips total
        = (content ++ (if truncated then [truncationMarker] else []), truncated)
      ∧ total + (content.map (fun s => s.length + 1)).sum ≤ maxChars + 1 := by
  intro snips
  induction snips with
  | nil =>
    intro total htot
    exact ⟨[], false, by simp [formatLoop], by simpa using htot⟩
  | cons s rest ih =>
    intro total htot
    by_cases hskip : s.start < st
    · obtain ⟨content, tr, heq, hb⟩ := ih total htot
      exact ⟨content, tr, by simp [formatLoop, hskip, heq], hb⟩
    · by_cases hstop : (et.any fun e => decide (e ≤ s.start)) = true
      · refine ⟨[], false, ?_, by simpa using htot⟩
        simp [formatLoop, hskip, hstop]
      · by_cases hover : maxChars < total + (formatSnippetLine s).length
        · refine ⟨[], true, ?_, by simpa using htot⟩
          simp [formatLoop, hskip, hstop, hover]
        · have htot' : total + (formatSnippetLine s).length + 1 ≤ maxChars + 1 := by omega
          obtain ⟨content, tr, heq, hb⟩ := ih (total + (formatSnippetLine s).length + 1) htot'
          refine ⟨formatSnippetLine s :: content, tr, ?_, ?_⟩
          · simp [formatLoop, hskip, hstop, hover, heq]
          · simp only [List.map_cons, List.sum_cons]
            omega

/-- C8: For every snippet sequence and `max_chars`, the windowing function
accumulates rendered `"[timestamp] text"` lines only while the running
character count (line length plus 1 for the separator) stays within
`max_chars`; on overflow it appends the literal truncation marker line and
stops, discarding the remaining snippets, so the rendered output before any
truncation marker never exceeds `max_chars` (in particular it never exceeds it
by more than one full line, as claimed). -/
theorem format_transcript_snippets_budget (snippets : List TranscriptSnippet)
    (max_chars : ℕ) (start_time : ℚ) (end_time : Option ℚ) :
    ∃ content truncated,
      formatLoop max_chars start_time end_time snippets 0
        = (content ++ (if truncated then [truncationMarker] else []), truncated)
      ∧ format_transcript_snippets snippets max_chars start_time end_time
          = joinLines (content ++ (if truncated then [truncationMarker] else []))
      ∧ (joinLines content).length ≤ max_chars := by
  obtain ⟨content, tr, heq, hbound⟩ :=
    formatLoop_content_bound max_chars start_time end_time snippets 0 (by omega)
  refine ⟨content, tr, heq, ?_, ?_⟩
  · rw [format_transcript_snippets, heq]
  · cases content with
    | nil => simp [joinLines]
    | cons l ls =>
      have h := joinLines_length l ls
      simp only [List.map_cons, List.sum_cons] at h hbound
      omega

/-! ### C3 — merge idempotence (refuted) and the surviving bound -/

/-- The reduction never returns more segments than `current` plus the rest. -/
theorem mergeLoop_length_le (thr : ℚ) : ∀ (rest : List VideoSegment) (current : VideoSegment),
    (mergeLoop thr current rest).length ≤ rest.length + 1 := by
  intro rest
  induction rest with
  | nil => intro current; simp [mergeLoop]
  | cons next_seg rest ih =>
    intro current
    simp only [mergeLoop, List.length_cons]
    split
    · split
      · exact (ih next_seg).trans (by omega)
      · exact (ih current).trans (by omega)
    · split
      · exact (ih (mergeTwo current next_seg)).trans (by omega)
      · simpa using Nat.succ_le_succ (ih next_seg)

/-- The merge engine never increases the number of segments. -/
theorem merge_similar_segments_length_le (segments : List VideoSegment) (thr : ℚ) :
    (merge_similar_segments segments thr).length ≤ segments.length := by
  by_cases hlt : segments.length < 2
  · simp [merge_similar_segments, hlt]
  · rw [merge_similar_segments, if_neg hlt]
    cases hs : sortByStart segments with
    | nil => simp
    | cons c rest =>
      have hlen : (c :: rest).length = segments.length := by
        rw [← hs]
        exact (List.perm_insertionSort startLE segments).length_eq
      have hml := mergeLoop_length_le thr rest c
      simp only [List.length_cons] at hlen
      show (mergeLoop thr c rest).length ≤ segments.length
      omega

/-- Counterexample to C3 as stated: on this three-segment input, pass 1
resolves an overlap by replacing the accumulator with a richer segment whose
title carries a continuation marker, so pass 2 merges further —
`merge(merge(S)) ≠ merge(S)`. -/
theorem merge_not_idempotent_cex :
    merge_similar_segments (merge_similar_segments [segCexA, segCexB, segCexC] 300) 300
      ≠ merge_similar_segments [segCexA, segCexB, segCexC] 300 := by decide

/-- C3 (amended): the merge engine is not idempotent — a second application
can merge further (see the counterexample) — but it never increases the
sequence: `merge(merge(S))` has at most as many segments as `merge(S)`. -/
theorem merge_merge_length_le (segments : List VideoSegment) (thr : ℚ) :
    (merge_similar_segments (merge_similar_segments segments thr) thr).length
      ≤ (merge_similar_segments segments thr).length :=
  merge_similar_segments_length_le _ thr

/-! ### C9 — output invariants of the merge engine and the scheduler -/

/-- The merge reduction, started from an accumulator that lower-bounds the
(sorted) remaining input by `start_time`, emits a list that is sorted by
`start_time`, chained by `end_time ≤ next.start_time`, and bounded below by
the accumulator's `start_time`. -/
theorem mergeLoop_sorted_chain (thr : ℚ) : ∀ (rest : List VideoSegment) (current : VideoSegment),
    (∀ t ∈ rest, startLE current t) →
    List.Pairwise startLE rest →
    ((∀ s ∈ mergeLoop thr current rest, startLE current s)
     ∧ List.Pairwise startLE (mergeLoop thr current rest)
     ∧ List.Chain' (fun a b => a.end_time ≤ b.start_time) (mergeLoop thr current rest)) := by
  intro rest
  induction rest with
  | nil =>
    intro current h1 h2
    refine ⟨?_, ?_, ?_⟩ <;> simp [mergeLoop, startLE]
  | cons next_seg rest ih =>
    intro current hlb hpw
    have hcn : startLE current next_seg := hlb next_seg (List.mem_cons_self _ _)
    obtain ⟨hnr, hpwr⟩ := List.pairwise_cons.mp hpw
    simp only [mergeLoop]
    split
    · next hov =>
      split
      · obtain ⟨m1, m2, m3⟩ := ih next_seg hnr hpwr
        exact ⟨fun s hs => le_trans hcn (m1 s hs), m2, m3⟩
      · exact ih current (fun t ht => le_trans hcn (hnr t ht)) hpwr
    · next hov =>
      have hce : current.end_time ≤ next_seg.start_time := by
        rw [not_lt] at hov
        linarith
      split
      · obtain ⟨m1, m2, m3⟩ := ih (mergeTwo current next_seg)
          (fun t ht => le_trans hcn (hnr t ht)) hpwr
        exact ⟨fun s hs => m1 s hs, m2, m3⟩
      · obtain ⟨m1, m2, m3⟩ := ih next_seg hnr hpwr
        refine ⟨?_, ?_, ?_⟩
        · intro s hs
          rcases List.mem_cons.mp hs with rfl | hs'
          · exact le_refl _
          · exact le_trans hcn (m1 s hs')
        · exact List.pairwise_cons.mpr ⟨fun s hs => le_trans hcn (m1 s hs), m2⟩
        · refine List.chain'_cons'.mpr ⟨?_, m3⟩
          intro h hh
          exact le_trans hce (m1 h (List.mem_of_mem_head? hh))

/-- C9: For every input, the merge engine's output is sorted by `start_time`
and pairwise non-overlapping (each emitted segment's `end_time` is at most the
next one's `start_time`); and every `Segmentation` the chunked scheduler
returns satisfies `total_segments = len(segments)`. -/
theorem merge_and_scheduler_invariants :
    (∀ (segments : List VideoSegment) (thr : ℚ),
      List.Pairwise startLE (merge_similar_segments segments thr)
      ∧ List.Chain' (fun a b => a.end_time ≤ b.start_time)
          (merge_similar_segments segments thr))
    ∧ (∀ (adapter : ℕ → String → Except String VideoSegmentation) (video_id : String)
        (snippets : List TranscriptSnippet) (D V : ℚ)
        (lastSnippet : TranscriptSnippet) (res : VideoSegmentation),
        snippets.getLast? = some lastSnippet →
        D < lastSnippet.start + lastSnippet.duration →
        segment_long_video adapter video_id snippets D V = .ok res →
        res.total_segments = res.segments.length) := by
  constructor
  · intro segments thr
    by_cases hlt : segments.length < 2
    · rw [merge_similar_segments, if_pos hlt]
      cases segments with
      | nil => simp
      | cons a tl =>
        cases tl with
        | nil => simp
        | cons b tl' =>
          simp only [List.length_cons] at hlt
          omega
    · rw [merge_similar_segments, if_neg hlt]
      cases hs : sortByStart segments with
      | nil => simp
      | cons c rest =>
        have hsorted : List.Pairwise startLE (c :: rest) := by
          rw [← hs]
          exact List.sorted_insertionSort startLE segments
        obtain ⟨hlb, hpw⟩ := List.pairwise_cons.mp hsorted
        obtain ⟨-, m2, m3⟩ := mergeLoop_sorted_chain thr rest c hlb hpw
        exact ⟨m2, m3⟩
  · intro adapter video_id snippets D V lastSnippet res hlast hgt hok
    simp only [segment_long_video, hlast] at hok
    rw [if_neg (not_le.mpr hgt)] at hok
    cases hsl : segLoop adapter snippets (lastSnippet.start + lastSnippet.duration) D V
        (loopFuel (lastSnippet.start + lastSnippet.duration) D V) 0 1
        ⟨[], 0, some "Long video content"⟩ with
    | error e =>
      rw [hsl] at hok
      exact absurd hok (by simp)
    | ok st =>
      rw [hsl] at hok
      simp only [Except.ok.injEq] at hok
      rw [← hok]

/-- Witness for C9's scheduler clause at a concrete successful run. -/
theorem merge_and_scheduler_invariants_witness :
    snips7200.getLast? = some ⟨"hello", 7190, 10⟩
    ∧ (3600 : ℚ) < 7190 + 10
    ∧ segment_long_video adapterAllOk "v" snips7200 3600 300
        = .ok ⟨"v", 1, [segS1], some "T1"⟩
    ∧ (1 : ℕ) = [segS1].length := by
  refine ⟨by decide, by decide, by decide, ?_⟩
  exact merge_and_scheduler_invariants.2 adapterAllOk "v" snips7200 3600 300
    ⟨"hello", 7190, 10⟩ ⟨"v", 1, [segS1], some "T1"⟩ (by decide) (by decide) (by decide)

/-! ### C2 — chunk plan: count formula, coverage, overlap -/

/-- The chosen loop fuel really dominates the number of loop iterations:
`T ≤ loopFuel · (D − V)` whenever `0 < V < D` and `0 < T`. -/
theorem loopFuel_sufficient (T D V : ℚ) (hvd : V < D) (hT : 0 < T) :
    T ≤ (loopFuel T D V : ℚ) * (D - V) := by
  have hg : (0:ℚ) < D - V := by linarith
  rw [loopFuel, if_pos hvd, ← div_le_iff₀ hg]
  have h1 : T / (D - V) ≤ (⌈T / (D - V)⌉ : ℚ) := Int.le_ceil _
  have h2 : (⌈T / (D - V)⌉ : ℤ) ≤ ((⌈T / (D - V)⌉.toNat : ℤ)) := Int.self_le_toNat _
  have h2' : ((⌈T / (D - V)⌉ : ℤ) : ℚ) ≤ ((⌈T / (D - V)⌉.toNat : ℤ) : ℚ) := by
    exact_mod_cast h2
  push_cast at h2' ⊢
  linarith

/-- All structural facts about the window loop in one induction: the head
window starts at `chunk_start`, the last window ends at `total_duration`,
consecutive windows touch or overlap (`next.start ≤ previous.end`), every
window has the `min(start + chunk_duration, total_duration)` end, every point
of `[chunk_start, total_duration]` lies in some window, and the window count
is `1 + max 0 ⌈(T - chunk_start - D)/(D - V)⌉`. -/
theorem chunkLoop_props (T D V : ℚ) (hv : 0 < V) (hvd : V < D) :
    ∀ (fuel : ℕ) (cs : ℚ), cs < T → T - cs ≤ (fuel : ℚ) * (D - V) →
    (∃ tail, chunkLoop T D V fuel cs = (cs, min (cs + D) T) :: tail)
    ∧ (∃ p, (chunkLoop T D V fuel cs).getLast? = some p ∧ p.2 = T)
    ∧ List.Chain' (fun a b => b.1 ≤ a.2) (chunkLoop T D V fuel cs)
    ∧ (∀ w ∈ chunkLoop T D V fuel cs, w.2 = min (w.1 + D) T ∧ w.1 < T)
    ∧ (∀ x : ℚ, cs ≤ x → x ≤ T → ∃ w ∈ chunkLoop T D V fuel cs, w.1 ≤ x ∧ x ≤ w.2)
    ∧ ((chunkLoop T D V fuel cs).length : ℤ) = 1 + max 0 ⌈(T - cs - D) / (D - V)⌉ := by
  intro fuel
  have hg : (0:ℚ) < D - V := by linarith
  induction fuel with
  | zero =>
    intro cs hcs hfuel
    exfalso
    push_cast at hfuel
    linarith
  | succ fuel ih =>
    intro cs hcs hfuel
    simp only [chunkLoop]
    rw [if_pos hcs]
    by_cases hend : T ≤ min (cs + D) T
    · rw [if_pos hend]
      have hminT : min (cs + D) T = T := le_antisymm (min_le_right _ _) hend
      have hy : T - cs - D ≤ 0 := by
        have := min_le_left (cs + D) T
        linarith
      have hceil : ⌈(T - cs - D) / (D - V)⌉ ≤ 0 := by
        rw [Int.ceil_le]
        push_cast
        rw [div_nonpos_iff]
        right
        exact ⟨hy, hg.le⟩
      refine ⟨⟨[], rfl⟩, ⟨(cs, min (cs + D) T), by simp, by simpa using hminT⟩, by simp,
        ?_, ?_, ?_⟩
      · intro w hw
        simp only [List.mem_singleton] at hw
        subst hw
        exact ⟨rfl, hcs⟩
      · intro x hx1 hx2
        refine ⟨(cs, min (cs + D) T), by simp, hx1, ?_⟩
        rw [hminT]
        exact hx2
      · simp only [List.length_singleton]
        omega
    · rw [if_neg hend]
      have hceD : min (cs + D) T = cs + D := by
        rcases le_total (cs + D) T with h | h
        · exact min_eq_left h
        · exfalso
          apply hend
          rw [min_eq_right h]
      rw [hceD]
      have hlt : cs + D < T := by
        have := not_le.mp hend
        rw [hceD] at this
        exact this
      have hcs' : cs + D - V < T := by linarith
      have hfuel' : T - (cs + D - V) ≤ (fuel : ℚ) * (D - V) := by
        push_cast at hfuel
        linarith [hfuel]
      obtain ⟨⟨tail', hhead⟩, ⟨p, hlastp, hp2⟩, hchain, hshape, hcover, hlen⟩ :=
        ih (cs + D - V) hcs' hfuel'
      refine ⟨⟨chunkLoop T D V fuel (cs + D - V), rfl⟩, ?_, ?_, ?_, ?_, ?_⟩
      · refine ⟨p, ?_, hp2⟩
        rw [hhead, List.getLast?_cons_cons, ← hhead]
        exact hlastp
      · rw [hhead]
        rw [hhead] at hchain
        exact List.chain'_cons.mpr ⟨by simp; linarith, hchain⟩
      · intro w hw
        rcases List.mem_cons.mp hw with rfl | hw'
        · exact ⟨hceD.symm, hcs⟩
        · exact hshape w hw'
      · intro x hx1 hx2
        by_cases hx : x ≤ cs + D
        · exact ⟨(cs, cs + D), List.mem_cons_self _ _, hx1, hx⟩
        · obtain ⟨w, hwmem, hw1, hw2⟩ := hcover x (by linarith) hx2
          exact ⟨w, List.mem_cons_of_mem _ hwmem, hw1, hw2⟩
      · simp only [List.length_cons]
        have hy : 0 < T - cs - D := by linarith
        have hdiv : (T - (cs + D - V) - D) / (D - V) = (T - cs - D) / (D - V) - 1 := by
          rw [show T - (cs + D - V) - D = (T - cs - D) - (D - V) by ring, sub_div,
            div_self hg.ne']
        have hceq : ⌈(T - (cs + D - V) - D) / (D - V)⌉ = ⌈(T - cs - D) / (D - V)⌉ - 1 := by
          rw [hdiv, Int.ceil_sub_one]
        have hpos : 0 < ⌈(T - cs - D) / (D - V)⌉ := Int.ceil_pos.mpr (div_pos hy hg)
        rw [hceq] at hlen
        push_cast
        omega

/-- The code's `total_chunks` value is the claimed
`floor((T - V)/(D - V)) + 1` (Python's `int` truncation agrees with the floor
because the quotient is positive here). -/
theorem totalChunks_eq_floor (T D V : ℚ) (hvd : V < D) (hT : V < T) :
    totalChunks T D V = ⌊(T - V) / (D - V)⌋ + 1 := by
  rw [totalChunks, pythonInt, if_pos]
  exact div_nonneg (by linarith) (by linarith)

/-- C2: For `0 < overlap < chunk_duration < total_duration` the scheduler
computes `total_chunks = floor((T-V)/(D-V)) + 1`; it iterates windows
`[chunk_start, min(chunk_start + D, T)]` whose union covers `[0, T]` with no
gaps (each consecutive window starts at or before its predecessor's end); and
on the spec scenario (T=7200, D=3600, V=300) the windows are exactly
`[0,3600], [3300,6900], [6600,7200]` with `total_chunks = 3`. -/
theorem chunk_plan_spec :
    (∀ (T D V : ℚ), 0 < V → V < D → D < T →
      (totalChunks T D V = ⌊(T - V) / (D - V)⌋ + 1
       ∧ (∀ x : ℚ, 0 ≤ x → x ≤ T → ∃ w ∈ chunkWindows T D V, w.1 ≤ x ∧ x ≤ w.2)
       ∧ List.Chain' (fun a b => b.1 ≤ a.2) (chunkWindows T D V)
       ∧ (∀ w ∈ chunkWindows T D V, w.2 = min (w.1 + D) T)))
    ∧ chunkWindows 7200 3600 300 = [(0, 3600), (3300, 6900), (6600, 7200)]
    ∧ totalChunks 7200 3600 300 = 3 := by
  refine ⟨?_, by decide, by decide⟩
  intro T D V hv hvd hT
  have h0T : (0:ℚ) < T := by linarith
  have hfuel : T - 0 ≤ (loopFuel T D V : ℚ) * (D - V) := by
    simpa using loopFuel_sufficient T D V hvd h0T
  obtain ⟨-, -, hchain, hshape, hcover, -⟩ :=
    chunkLoop_props T D V hv hvd (loopFuel T D V) 0 h0T hfuel
  exact ⟨totalChunks_eq_floor T D V hvd (by linarith), hcover, hchain,
    fun w hw => (hshape w hw).1⟩

/-- Witness for C2 at the spec scenario, including a covered sample point. -/
theorem chunk_plan_spec_witness :
    ((0:ℚ) < 300 ∧ (300:ℚ) < 3600 ∧ (3600:ℚ) < 7200)
    ∧ totalChunks 7200 3600 300 = ⌊((7200:ℚ) - 300) / (3600 - 300)⌋ + 1
    ∧ (∃ w ∈ chunkWindows 7200 3600 300, w.1 ≤ 5000 ∧ (5000:ℚ) ≤ w.2) := by
  refine ⟨⟨by norm_num, by norm_num, by norm_num⟩, ?_, ?_⟩
  · exact (chunk_plan_spec.1 7200 3600 300 (by norm_num) (by norm_num) (by norm_num)).1
  · exact (chunk_plan_spec.1 7200 3600 300 (by norm_num) (by norm_num)
      (by norm_num)).2.1 5000 (by norm_num) (by norm_num)

/-! ### C1 — the partial-progress annotation -/

/-- When a window end falls short of the total duration it equals
`chunk_start + chunk_duration`. -/
theorem min_window_eq (cs D T : ℚ) (h : min (cs + D) T < T) : min (cs + D) T = cs + D := by
  rcases le_total (cs + D) T with h' | h'
  · exact min_eq_left h'
  · rw [min_eq_right h'] at h
    exact absurd h (lt_irrefl T)

/-- Under an adapter that succeeds on every call, the scheduling loop returns
normally and its `last_processed_chunk` counts exactly the windows the loop
iterates (the `chunkLoop` windows). -/
theorem segLoop_success (adapter : ℕ → String → Except String VideoSegmentation)
    (snippets : List TranscriptSnippet) (T D V : ℚ) (hv : 0 < V) (hvd : V < D)
    (hok : ∀ n w, ∃ r, adapter n w = Except.ok r) :
    ∀ (fuel : ℕ) (cs : ℚ) (n : ℕ) (st : LoopState), cs < T →
      T - cs ≤ (fuel : ℚ) * (D - V) →
      ∃ st', segLoop adapter snippets T D V fuel cs n st = .ok st'
        ∧ st'.last_processed_chunk + 1 = n + (chunkLoop T D V fuel cs).length := by
  intro fuel
  induction fuel with
  | zero =>
    intro cs n st hcs hfuel
    exfalso
    push_cast at hfuel
    linarith
  | succ fuel ih =>
    intro cs n st hcs hfuel
    obtain ⟨r, hr⟩ := hok n (format_transcript_snippets snippets 15000 cs (some (min (cs + D) T)))
    simp only [segLoop, chunkLoop, hr, hcs, if_true]
    by_cases hend : T ≤ min (cs + D) T
    · simp only [hend, if_true]
      exact ⟨_, rfl, by simp⟩
    · simp only [hend, if_false]
      have hmin : min (cs + D) T < T := not_le.mp hend
      have hceD := min_window_eq cs D T hmin
      have hcs' : min (cs + D) T - V < T := by linarith
      have hfuel' : T - (min (cs + D) T - V) ≤ (fuel : ℚ) * (D - V) := by
        rw [hceD]
        push_cast at hfuel
        linarith
      obtain ⟨st', hst', hlen⟩ := ih (min (cs + D) T - V) (n + 1)
        { all_segments := includeChunkSegments n cs V st.all_segments r.segments
          last_processed_chunk := n
          overall_topic := if n = 1 then r.overall_topic else st.overall_topic }
        hcs' hfuel'
      refine ⟨st', hst', ?_⟩
      rw [List.length_cons]
      omega

/-- The arithmetic behind the annotation: the loop iterates
`1 + ⌈(T-D)/(D-V)⌉` windows while the planned count is `⌊(T-D)/(D-V)⌋ + 2`,
so the "partial" comparison fires on a fully successful run exactly when
`(T - D)` is an integer multiple of `(D - V)`. -/
theorem windows_count_iff (T D V : ℚ) (hv : 0 < V) (hvd : V < D) (hT : D < T) :
    ((((chunkWindows T D V).length : ℤ) < totalChunks T D V)
        ↔ ∃ k : ℤ, T - D = k * (D - V))
    ∧ ((∃ k : ℤ, T - D = k * (D - V)) →
        totalChunks T D V = (chunkWindows T D V).length + 1)
    ∧ (¬(∃ k : ℤ, T - D = k * (D - V)) →
        totalChunks T D V = (chunkWindows T D V).length) := by
  have hg : (0:ℚ) < D - V := by linarith
  have hy : (0:ℚ) < T - D := by linarith
  have hx : (0:ℚ) < (T - D) / (D - V) := div_pos hy hg
  have hceilpos : 0 < ⌈(T - D) / (D - V)⌉ := Int.ceil_pos.mpr hx
  have hlen : ((chunkWindows T D V).length : ℤ) = 1 + ⌈(T - D) / (D - V)⌉ := by
    have h0T : (0:ℚ) < T := by linarith
    have hfuel : T - 0 ≤ (loopFuel T D V : ℚ) * (D - V) := by
      simpa using loopFuel_sufficient T D V hvd h0T
    obtain ⟨-, -, -, -, -, hl⟩ := chunkLoop_props T D V hv hvd (loopFuel T D V) 0 h0T hfuel
    rw [show T - 0 - D = T - D by ring] at hl
    rw [chunkWindows] at *
    omega
  have htotal : totalChunks T D V = ⌊(T - D) / (D - V)⌋ + 2 := by
    rw [totalChunks_eq_floor T D V hvd (by linarith)]
    rw [show T - V = (T - D) + (D - V) by ring, add_div, div_self hg.ne', Int.floor_add_one]
    omega
  have hxk : (∃ k : ℤ, T - D = k * (D - V)) ↔ ∃ k : ℤ, (T - D) / (D - V) = (k : ℚ) := by
    constructor
    · rintro ⟨k, hk⟩
      exact ⟨k, by rw [hk, mul_div_cancel_right₀ _ hg.ne']⟩
    · rintro ⟨k, hk⟩
      exact ⟨k, (div_eq_iff hg.ne').mp hk⟩
  have hcf : ⌈(T - D) / (D - V)⌉ ≤ ⌊(T - D) / (D - V)⌋
      ↔ ∃ k : ℤ, (T - D) / (D - V) = (k : ℚ) := by
    constructor
    · intro h
      have h1 := Int.floor_le ((T - D) / (D - V))
      have h2 := Int.le_ceil ((T - D) / (D - V))
      have h3 : ((⌈(T - D) / (D - V)⌉ : ℤ) : ℚ) ≤ ((⌊(T - D) / (D - V)⌋ : ℤ) : ℚ) := by
        exact_mod_cast h
      exact ⟨⌊(T - D) / (D - V)⌋, le_antisymm (by linarith) h1⟩
    · rintro ⟨k, hk⟩
      rw [hk, Int.ceil_intCast, Int.floor_intCast]
  have hup : ⌈(T - D) / (D - V)⌉ ≤ ⌊(T - D) / (D - V)⌋ + 1 := by
    rw [Int.ceil_le]
    push_cast
    linarith [Int.lt_floor_add_one ((T - D) / (D - V))]
  have hlow : ⌊(T - D) / (D - V)⌋ ≤ ⌈(T - D) / (D - V)⌉ := by
    have h1 := Int.floor_le ((T - D) / (D - V))
    have h2 := Int.le_ceil ((T - D) / (D - V))
    exact_mod_cast le_trans h1 h2
  refine ⟨?_, ?_, ?_⟩
  · rw [hlen, htotal]
    constructor
    · intro h
      exact hxk.mpr (hcf.mp (by omega))
    · intro h
      have := hcf.mpr (hxk.mp h)
      omega
  · intro h
    have := hcf.mpr (hxk.mp h)
    rw [htotal, hlen]
    omega
  · intro h
    have h1 : ¬(⌈(T - D) / (D - V)⌉ ≤ ⌊(T - D) / (D - V)⌋) :=
      fun hc => h (hxk.mpr (hcf.mp hc))
    rw [htotal, hlen]
    omega

/-- C1 (amended): For a run with `total_duration > chunk_duration` in which
every iterated chunk's adapter call succeeds, the scheduler still returns
normally, and the partial-progress annotation `"[Partial: X/Y chunks
processed up to <ts>]"` is appended to `overall_topic` precisely when
`(total_duration − chunk_duration)` is an integer multiple of
`(chunk_duration − overlap_duration)` — the planned-chunk formula then counts
one more chunk (`Y = X + 1`) than the loop iterates even though nothing
failed; otherwise the planned count equals the iterated count and no
annotation appears.  (Truncation by a RateLimited failure is thus sufficient
but not necessary for the annotation; C1's "only if" direction fails — see
the counterexample.)  When present, `X = last_processed_chunk` (the chunks
completed), `Y` the planned total, and the timestamp renders the end time of
the last accumulated segment (0 if none). -/
theorem segment_long_video_partial_annotation
    (adapter : ℕ → String → Except String VideoSegmentation)
    (video_id : String) (snippets : List TranscriptSnippet) (D V T : ℚ)
    (lastSnippet : TranscriptSnippet)
    (hv : 0 < V) (hvd : V < D)
    (hlast : snippets.getLast? = some lastSnippet)
    (hT : T = lastSnippet.start + lastSnippet.duration)
    (hgt : D < T)
    (hok : ∀ n w, ∃ r, adapter n w = Except.ok r) :
    ∃ st, segLoop adapter snippets T D V (loopFuel T D V) 0 1
          ⟨[], 0, some "Long video content"⟩ = .ok st
      ∧ st.last_processed_chunk = (chunkWindows T D V).length
      ∧ segment_long_video adapter video_id snippets D V = .ok
          { video_id := video_id
            total_segments := (merge_similar_segments st.all_segments 300).length
            segments := merge_similar_segments st.all_segments 300
            overall_topic :=
              if (st.last_processed_chunk : ℤ) < totalChunks T D V then
                some (pyStrOpt st.overall_topic ++ " [Partial: "
                  ++ toString st.last_processed_chunk ++ "/" ++ toString (totalChunks T D V)
                  ++ " chunks processed up to "
                  ++ format_timestamp (lastEndOrZero st.all_segments) ++ "]")
              else st.overall_topic }
      ∧ (((st.last_processed_chunk : ℤ) < totalChunks T D V)
            ↔ ∃ k : ℤ, T - D = k * (D - V))
      ∧ ((∃ k : ℤ, T - D = k * (D - V)) →
            totalChunks T D V = st.last_processed_chunk + 1)
      ∧ (¬(∃ k : ℤ, T - D = k * (D - V)) →
            totalChunks T D V = st.last_processed_chunk) := by
  subst hT
  have h0T : (0:ℚ) < lastSnippet.start + lastSnippet.duration := by linarith
  have hfuel : (lastSnippet.start + lastSnippet.duration) - 0
      ≤ (loopFuel (lastSnippet.start + lastSnippet.duration) D V : ℚ) * (D - V) := by
    simpa using loopFuel_sufficient (lastSnippet.start + lastSnippet.duration) D V hvd h0T
  obtain ⟨st, hst, hcount⟩ := segLoop_success adapter snippets
    (lastSnippet.start + lastSnippet.duration) D V hv hvd hok
    (loopFuel (lastSnippet.start + lastSnippet.duration) D V) 0 1
    ⟨[], 0, some "Long video content"⟩ h0T hfuel
  have hcount' : st.last_processed_chunk
      = (chunkWindows (lastSnippet.start + lastSnippet.duration) D V).length := by
    have hw : (chunkWindows (lastSnippet.start + lastSnippet.duration) D V).length
        = (chunkLoop (lastSnippet.start + lastSnippet.duration) D V
            (loopFuel (lastSnippet.start + lastSnippet.duration) D V) 0).length := rfl
    omega
  obtain ⟨hiff, himp1, himp2⟩ :=
    windows_count_iff (lastSnippet.start + lastSnippet.duration) D V hv hvd hgt
  refine ⟨st, hst, hcount', ?_, ?_, ?_, ?_⟩
  · simp only [segment_long_video, hlast]
    rw [if_neg (not_le.mpr hgt), hst]
  · rw [hcount']
    exact hiff
  · intro h
    rw [hcount']
    exact himp1 h
  · intro h
    rw [hcount']
    exact himp2 h

/-- Counterexample to C1 as stated: with an adapter that succeeds on every
call (`adapterAllOk` never raises) and a 6900-second video at D=3600, V=300
— where `T − D = 3300 = D − V` exactly — the run has no RateLimited failure
yet `overall_topic` carries the partial annotation, reporting 2/3 chunks. -/
theorem segment_long_video_annotation_without_failure_cex :
    segment_long_video adapterAllOk "v" snips6900 3600 300
      = .ok ⟨"v", 1, [segS1], some "T1 [Partial: 2/3 chunks processed up to 59:50]"⟩ := by
  decide

/-- Witness for the amended C1 at the spec's 7200-second scenario (where
`T − D = 3600` is not a multiple of `D − V = 3300`, so no annotation). -/
theorem segment_long_video_partial_annotation_witness :
    ((0:ℚ) < 300 ∧ (300:ℚ) < 3600
      ∧ snips7200.getLast? = some ⟨"hello", 7190, 10⟩
      ∧ (7200:ℚ) = (7190:ℚ) + 10 ∧ (3600:ℚ) < 7200)
    ∧ (∃ st, segLoop adapterAllOk snips7200 7200 3600 300 (loopFuel 7200 3600 300) 0 1
          ⟨[], 0, some "Long video content"⟩ = .ok st
      ∧ st.last_processed_chunk = (chunkWindows 7200 3600 300).length
      ∧ segment_long_video adapterAllOk "v" snips7200 3600 300 = .ok
          { video_id := "v"
            total_segments := (merge_similar_segments st.all_segments 300).length
            segments := merge_similar_segments st.all_segments 300
            overall_topic :=
              if (st.last_processed_chunk : ℤ) < totalChunks 7200 3600 300 then
                some (pyStrOpt st.overall_topic ++ " [Partial: "
                  ++ toString st.last_processed_chunk ++ "/" ++ toString (totalChunks 7200 3600 300)
                  ++ " chunks processed up to "
                  ++ format_timestamp (lastEndOrZero st.all_segments) ++ "]")
              else st.overall_topic }
      ∧ (((st.last_processed_chunk : ℤ) < totalChunks 7200 3600 300)
            ↔ ∃ k : ℤ, (7200:ℚ) - 3600 = k * (3600 - 300))
      ∧ ((∃ k : ℤ, (7200:ℚ) - 3600 = k * (3600 - 300)) →
            totalChunks 7200 3600 300 = st.last_processed_chunk + 1)
      ∧ (¬(∃ k : ℤ, (7200:ℚ) - 3600 = k * (3600 - 300)) →
            totalChunks 7200 3600 300 = st.last_processed_chunk)) := by
  refine ⟨⟨by norm_num, by norm_num, by decide, by norm_num, by norm_num⟩, ?_⟩
  exact segment_long_video_partial_annotation adapterAllOk "v" snips7200 3600 300 7200
    ⟨"hello", 7190, 10⟩ (by norm_num) (by norm_num) (by decide) (by norm_num) (by norm_num)
    (fun n w => ⟨resultR1, rfl⟩)

/-! ### C10 — rate limit on the very first chunk -/

/-- C10: If the very first chunk's adapter call fails with a rate-limited
error on a video longer than one chunk, the scheduler still returns normally:
the result has no segments, `total_segments = 0`, and `overall_topic` is the
fallback `"Long video content"` followed by the partial annotation reporting
`0/N` chunks (N the planned count) up to timestamp `00:00` (rendered from end
time 0 because nothing was accumulated). -/
theorem segment_long_video_first_chunk_rate_limited
    (adapter : ℕ → String → Except String VideoSegmentation)
    (video_id : String) (snippets : List TranscriptSnippet) (D V : ℚ)
    (lastSnippet : TranscriptSnippet) (err : String)
    (hv : 0 < V) (hvd : V < D)
    (hlast : snippets.getLast? = some lastSnippet)
    (hgt : D < lastSnippet.start + lastSnippet.duration)
    (herr : ∀ w, adapter 1 w = .error err)
    (hrl : isRateLimitError err = true) :
    segment_long_video adapter video_id snippets D V = .ok
      { video_id := video_id, total_segments := 0, segments := [],
        overall_topic := some ("Long video content [Partial: 0/"
          ++ toString (totalChunks (lastSnippet.start + lastSnippet.duration) D V)
          ++ " chunks processed up to 00:00]") } := by
  have h0T : (0:ℚ) < lastSnippet.start + lastSnippet.duration := by linarith
  simp only [segment_long_video, hlast]
  rw [if_neg (not_le.mpr hgt)]
  obtain ⟨m, hm⟩ : ∃ m, loopFuel (lastSnippet.start + lastSnippet.duration) D V = m + 1 := by
    rw [loopFuel, if_pos hvd]
    exact ⟨_, rfl⟩
  rw [hm]
  simp only [segLoop, herr, hrl, h0T, if_true]
  have htc : ((0:ℕ) : ℤ) < totalChunks (lastSnippet.start + lastSnippet.duration) D V := by
    rw [totalChunks, pythonInt, if_pos (div_nonneg (by linarith) (by linarith))]
    have h := Int.floor_nonneg.mpr
      (div_nonneg (by linarith : (0:ℚ) ≤ lastSnippet.start + lastSnippet.duration - V)
        (by linarith : (0:ℚ) ≤ D - V))
    push_cast
    omega
  rw [if_pos htc]
  rw [show merge_similar_segments [] 300 = [] from rfl]
  rw [show pyStrOpt (some "Long video content") ++ " [Partial: " ++ toString (0:ℕ) ++ "/"
      = "Long video content [Partial: 0/" from by decide]
  rw [show format_timestamp (lastEndOrZero []) = "00:00" from by decide]
  simp only [String.append_assoc]
  rw [show (" chunks processed up to " ++ ("00:00" ++ "]") : String)
      = " chunks processed up to 00:00]" from by decide]
  rfl

/-- Witness for C10 at a concrete first-chunk rate-limited run (the error
message contains "rate", "limit" and "429"; three chunks were planned). -/
theorem segment_long_video_first_chunk_rate_limited_witness :
    ((0:ℚ) < 300 ∧ (300:ℚ) < 3600
      ∧ snips7200.getLast? = some ⟨"hello", 7190, 10⟩
      ∧ (3600:ℚ) < 7190 + 10
      ∧ (∀ w, adapterRateLimitedAt1 1 w = .error "Rate limit exceeded (429)")
      ∧ isRateLimitError "Rate limit exceeded (429)" = true)
    ∧ segment_long_video adapterRateLimitedAt1 "v" snips7200 3600 300 = .ok
        { video_id := "v", total_segments := 0, segments := [],
          overall_topic := some ("Long video content [Partial: 0/"
            ++ toString (totalChunks (7190 + 10) 3600 300)
            ++ " chunks processed up to 00:00]") }
    ∧ toString (totalChunks ((7190:ℚ) + 10) 3600 300) = "3" := by
  refine ⟨⟨by norm_num, by norm_num, by decide, by norm_num, fun w => rfl, by decide⟩, ?_, by decide⟩
  exact segment_long_video_first_chunk_rate_limited adapterRateLimitedAt1 "v" snips7200
    3600 300 ⟨"hello", 7190, 10⟩ "Rate limit exceeded (429)" (by norm_num) (by norm_num)
    (by decide) (by norm_num) (fun w => rfl) (by decide)
